import Mathlib

/-!
Verification development for the mcp-meal-log meal-logging pipeline.

Shallow embedding of:
  - internal/models/meal.go        (data model)
  - internal/server/sampling.go    (estimation client: parseAIResponse,
                                    createFallbackResponse, CalculateCarbs)
  - internal/storage/sqlite.go     (SaveMeal, GetMeals, loadFoodsForMeal)
  - internal/server/tools.go       (logMeal, getMeals orchestration)

Modelling conventions:
  - Go `float64` carb fields are modelled as exact rationals; JSON numbers
    decode to rationals.
  - Go `time.Time` values are modelled by their RFC 3339 text rendering
    (a `String`); the sqlite driver stores that text and GetMeals re-parses
    it with `time.Parse(time.RFC3339, _)`, modelled by a validity check.
  - the external gateway call and the storage engine's own failures are
    environment inputs (an `Except` outcome, a per-statement failure oracle).
-/

/-- Go `type ConfidenceLevel string` (internal/models/meal.go). -/
abbrev ConfidenceLevel := String

def LowConfidence : ConfidenceLevel := "low"

/-- Go `models.Food` (internal/models/meal.go). -/
structure Food where
  name : String
  quantity : String
  carbsPer100g : ℚ
  estimatedCarbs : ℚ
  confidence : ConfidenceLevel
deriving DecidableEq

/-- Go `models.Meal` (internal/models/meal.go); time fields carry the
RFC 3339 text rendering of the Go `time.Time`. -/
structure Meal where
  id : String
  description : String
  timestamp : String
  foods : List Food
  totalCarbs : ℚ
  confidence : ConfidenceLevel
  createdAt : String
  updatedAt : String
  source : String
deriving DecidableEq

/-- Go `models.CarbCalculationResponse` (internal/models/meal.go). -/
structure CarbCalculationResponse where
  foods : List Food
  totalCarbs : ℚ
  confidence : ConfidenceLevel
  clarifications : List String
  needsMoreInfo : Bool
deriving DecidableEq

/-! ## JSON values and a parser modelling the `encoding/json` subset used
by sampling.go.  Braces are written via `Char.ofNat` so they can be used in
code positions. -/

def lbrace : Char := Char.ofNat 123

def rbrace : Char := Char.ofNat 125

inductive JValue where
  | null : JValue
  | bool (b : Bool) : JValue
  | num (v : ℚ) : JValue
  | str (s : String) : JValue
  | arr (elems : List JValue) : JValue
  | obj (fields : List (String × JValue)) : JValue

def isWs (c : Char) : Bool :=
  c = ' ' || c = '\t' || c = '\n' || c = '\r'

def skipWs : List Char → List Char
  | [] => []
  | c :: cs => if isWs c then skipWs cs else c :: cs

def isDigitCh (c : Char) : Bool :=
  '0' ≤ c && c ≤ '9'

def digitVal (c : Char) : Nat := c.toNat - 48

/-- Parse the remainder of a JSON string literal (after the opening quote),
handling the escapes `encoding/json` accepts. -/
def pStringRest (acc : List Char) : List Char → Option (String × List Char)
  | [] => none
  | '"' :: rest => some (String.mk acc.reverse, rest)
  | '\\' :: '"' :: rest => pStringRest ('"' :: acc) rest
  | '\\' :: '\\' :: rest => pStringRest ('\\' :: acc) rest
  | '\\' :: '/' :: rest => pStringRest ('/' :: acc) rest
  | '\\' :: 'b' :: rest => pStringRest (Char.ofNat 8 :: acc) rest
  | '\\' :: 'f' :: rest => pStringRest (Char.ofNat 12 :: acc) rest
  | '\\' :: 'n' :: rest => pStringRest ('\n' :: acc) rest
  | '\\' :: 'r' :: rest => pStringRest ('\r' :: acc) rest
  | '\\' :: 't' :: rest => pStringRest ('\t' :: acc) rest
  | '\\' :: 'u' :: a :: b :: c :: d :: rest =>
      let hex : Char → Option Nat := fun ch =>
        if isDigitCh ch then some (digitVal ch)
        else if 'a' ≤ ch && ch ≤ 'f' then some (ch.toNat - 87)
        else if 'A' ≤ ch && ch ≤ 'F' then some (ch.toNat - 55)
        else none
      match hex a, hex b, hex c, hex d with
      | some ha, some hb, some hc, some hd =>
          pStringRest (Char.ofNat (((ha * 16 + hb) * 16 + hc) * 16 + hd) :: acc) rest
      | _, _, _, _ => none
  | '\\' :: _ => none
  | c :: rest => pStringRest (c :: acc) rest

def digitsVal (acc : Nat) : List Char → Nat
  | [] => acc
  | c :: cs => digitsVal (acc * 10 + digitVal c) cs

def takeDigits : List Char → (List Char × List Char)
  | [] => ([], [])
  | c :: cs =>
      if isDigitCh c then
        let (ds, rest) := takeDigits cs
        (c :: ds, rest)
      else ([], c :: cs)

/-- Convert a parsed JSON number (sign, integer digits, fraction digits,
exponent) to a rational.  The integer-only case avoids rational arithmetic
so that concrete inputs reduce in the kernel. -/
def jnumVal (neg : Bool) (ip : Nat) (fracDigits : List Char) (expNeg : Bool)
    (expVal : Nat) : ℚ :=
  if fracDigits.isEmpty ∧ expVal = 0 then
    (if neg then -(ip : Int) else (ip : Int) : ℚ)
  else
    let mantissa : ℚ := (ip : ℚ) + (digitsVal 0 fracDigits : ℚ) / (10 : ℚ) ^ fracDigits.length
    let scaled : ℚ :=
      if expNeg then mantissa / (10 : ℚ) ^ expVal else mantissa * (10 : ℚ) ^ expVal
    if neg then -scaled else scaled

/-- Parse a JSON number token (grammar of RFC 8259, as `encoding/json`
enforces it: no leading zeros, fraction and exponent need at least one
digit). -/
def pNum (cs : List Char) : Option (JValue × List Char) :=
  let (neg, cs1) := match cs with
    | '-' :: rest => (true, rest)
    | _ => (false, cs)
  match takeDigits cs1 with
  | ([], _) => none
  | (d :: ds, rest1) =>
      if d = '0' ∧ ds ≠ [] then none
      else
        let ip := digitsVal 0 (d :: ds)
        let fracPart : Option (List Char × List Char) := match rest1 with
          | '.' :: r =>
              match takeDigits r with
              | ([], _) => none
              | (fs, r2) => some (fs, r2)
          | _ => some ([], rest1)
        match fracPart with
        | none => none
        | some (fracDigits, rest2) =>
          match rest2 with
          | e :: r3 =>
              if e = 'e' ∨ e = 'E' then
                let (expNeg, r4) := match r3 with
                  | '+' :: r => (false, r)
                  | '-' :: r => (true, r)
                  | _ => (false, r3)
                match takeDigits r4 with
                | ([], _) => none
                | (es, r5) =>
                    some (.num (jnumVal neg ip fracDigits expNeg (digitsVal 0 es)), r5)
              else some (.num (jnumVal neg ip fracDigits false 0), e :: r3)
          | [] => some (.num (jnumVal neg ip fracDigits false 0), [])

mutual

/-- Fuel-indexed JSON value parser. -/
def pVal : Nat → List Char → Option (JValue × List Char)
  | 0, _ => none
  | fuel + 1, cs =>
      match skipWs cs with
      | 'n' :: 'u' :: 'l' :: 'l' :: rest => some (.null, rest)
      | 't' :: 'r' :: 'u' :: 'e' :: rest => some (.bool true, rest)
      | 'f' :: 'a' :: 'l' :: 's' :: 'e' :: rest => some (.bool false, rest)
      | '"' :: rest => (pStringRest [] rest).map (fun p => (.str p.1, p.2))
      | '[' :: rest =>
          match skipWs rest with
          | ']' :: rest2 => some (.arr [], rest2)
          | _ => (pElems fuel rest).map (fun p => (.arr p.1, p.2))
      | c :: rest =>
          if c = lbrace then
            match skipWs rest with
            | c2 :: rest2 =>
                if c2 = rbrace then some (.obj [], rest2)
                else (pFields fuel rest).map (fun p => (.obj p.1, p.2))
            | [] => none
          else if c = '-' ∨ isDigitCh c then pNum (c :: rest)
          else none
      | [] => none

/-- Comma-separated array elements, up to the closing bracket. -/
def pElems : Nat → List Char → Option (List JValue × List Char)
  | 0, _ => none
  | fuel + 1, cs =>
      match pVal fuel cs with
      | none => none
      | some (v, rest) =>
          match skipWs rest with
          | ',' :: rest2 => (pElems fuel rest2).map (fun p => (v :: p.1, p.2))
          | ']' :: rest2 => some ([v], rest2)
          | _ => none

/-- Comma-separated object members, up to the closing brace. -/
def pFields : Nat → List Char → Option (List (String × JValue) × List Char)
  | 0, _ => none
  | fuel + 1, cs =>
      match skipWs cs with
      | '"' :: rest =>
          match pStringRest [] rest with
          | none => none
          | some (k, rest2) =>
              match skipWs rest2 with
              | ':' :: rest3 =>
                  match pVal fuel rest3 with
                  | none => none
                  | some (v, rest4) =>
                      match skipWs rest4 with
                      | ',' :: rest5 =>
                          (pFields fuel rest5).map (fun p => ((k, v) :: p.1, p.2))
                      | c :: rest5 =>
                          if c = rbrace then some ([(k, v)], rest5) else none
                      | [] => none
              | _ => none
      | _ => none

end

/-- Model of `json.Unmarshal`'s syntactic phase: parse one JSON value and
require only trailing whitespace after it. -/
def jparse (s : String) : Option JValue :=
  match pVal (2 * s.length + 2) s.data with
  | some (v, rest) => if (skipWs rest).isEmpty then some v else none
  | none => none

/-! ## Decoding the completion payload and the carb JSON
(model of `json.Unmarshal` into `map[string]interface` and into
`models.CarbCalculationResponse`; unknown keys are ignored, later duplicate
keys override earlier ones, `null` leaves a field at its zero value, and a
type mismatch fails the whole decode). -/

def zeroFood : Food := ⟨"", "", 0, 0, ""⟩

def setFoodField (f : Food) (k : String) (v : JValue) : Option Food :=
  if k = "name" then
    match v with
    | .str s => some { f with name := s }
    | .null => some f
    | _ => none
  else if k = "quantity" then
    match v with
    | .str s => some { f with quantity := s }
    | .null => some f
    | _ => none
  else if k = "carbs_per_100g" then
    match v with
    | .num q => some { f with carbsPer100g := q }
    | .null => some f
    | _ => none
  else if k = "estimated_carbs" then
    match v with
    | .num q => some { f with estimatedCarbs := q }
    | .null => some f
    | _ => none
  else if k = "confidence" then
    match v with
    | .str s => some { f with confidence := s }
    | .null => some f
    | _ => none
  else some f

def decodeFoodFields (f : Food) : List (String × JValue) → Option Food
  | [] => some f
  | (k, v) :: rest =>
      match setFoodField f k v with
      | none => none
      | some f2 => decodeFoodFields f2 rest

def decodeFood : JValue → Option Food
  | .obj fs => decodeFoodFields zeroFood fs
  | .null => some zeroFood
  | _ => none

def decodeFoodList : List JValue → Option (List Food)
  | [] => some []
  | v :: vs =>
      match decodeFood v with
      | none => none
      | some f =>
          match decodeFoodList vs with
          | none => none
          | some fs => some (f :: fs)

def decodeStringList : List JValue → Option (List String)
  | [] => some []
  | v :: vs =>
      match (match v with
             | JValue.str s => some s
             | JValue.null => some ""
             | _ => none) with
      | none => none
      | some s =>
          match decodeStringList vs with
          | none => none
          | some ss => some (s :: ss)

def zeroCarbResponse : CarbCalculationResponse := ⟨[], 0, "", [], false⟩

def setCarbField (r : CarbCalculationResponse) (k : String) (v : JValue) :
    Option CarbCalculationResponse :=
  if k = "foods" then
    match v with
    | .arr es => (decodeFoodList es).map (fun fs => { r with foods := fs })
    | .null => some r
    | _ => none
  else if k = "total_carbs" then
    match v with
    | .num q => some { r with totalCarbs := q }
    | .null => some r
    | _ => none
  else if k = "confidence" then
    match v with
    | .str s => some { r with confidence := s }
    | .null => some r
    | _ => none
  else if k = "clarifications" then
    match v with
    | .arr es => (decodeStringList es).map (fun ss => { r with clarifications := ss })
    | .null => some r
    | _ => none
  else if k = "needs_more_info" then
    match v with
    | .bool b => some { r with needsMoreInfo := b }
    | .null => some r
    | _ => none
  else some r

def decodeCarbFields (r : CarbCalculationResponse) :
    List (String × JValue) → Option CarbCalculationResponse
  | [] => some r
  | (k, v) :: rest =>
      match setCarbField r k v with
      | none => none
      | some r2 => decodeCarbFields r2 rest

/-- Model of `json.Unmarshal(jsonStr, &response)` for
`models.CarbCalculationResponse`. -/
def decodeCarb : JValue → Option CarbCalculationResponse
  | .obj fs => decodeCarbFields zeroCarbResponse fs
  | .null => some zeroCarbResponse
  | _ => none

/-- Go map semantics: a duplicated key keeps the last occurrence. -/
def lookupLast (fields : List (String × JValue)) (key : String) : Option JValue :=
  match fields with
  | [] => none
  | (k, v) :: rest =>
      match lookupLast rest key with
      | some v2 => some v2
      | none => if k = key then some v else none

/-! ## Estimation client (internal/server/sampling.go) -/

/-- `createFallbackResponse` (internal/server/sampling.go lines 184-206);
the argument (the unparsed text) is ignored by the Go code as well. -/
def createFallbackResponse (_aiOutput : String) : CarbCalculationResponse where
  foods := [⟨"AI Analysis Result", "estimated", 0, 20, LowConfidence⟩]
  totalCarbs := 20
  confidence := LowConfidence
  needsMoreInfo := true
  clarifications :=
    ["Could you provide more specific details about portion sizes?",
     "How was the food prepared (grilled, fried, etc.)?",
     "Were there any sauces or condiments?"]

inductive ParseErr where
  | completionUnparseable
  | noContent
deriving DecidableEq

/-- Model of `strings.Index content` for a single character. -/
def firstIdxOf (c : Char) : List Char → Option Nat
  | [] => none
  | x :: xs => if x = c then some 0 else (firstIdxOf c xs).map (· + 1)

/-- Model of `strings.LastIndex content` for a single character. -/
def lastIdxOf (c : Char) : List Char → Option Nat
  | [] => none
  | x :: xs =>
      match lastIdxOf c xs with
      | some i => some (i + 1)
      | none => if x = c then some 0 else none

/-- `content[start : end+1]` for the brace positions found. -/
def extractBetween (content : String) (start stop : Nat) : String :=
  String.mk ((content.data.drop start).take (stop + 1 - start))

/-- `json.Unmarshal(jsonStr, &response)`: syntax then field decoding. -/
def jdecodeCarb (s : String) : Option CarbCalculationResponse :=
  match jparse s with
  | none => none
  | some jv => decodeCarb jv

/-- The brace-location half of `parseAIResponse`: find the first opening
and the last closing brace of the content and decode the substring between
them; `none` exactly when the Go code falls back. -/
def locatedCarb (content : String) : Option CarbCalculationResponse :=
  match firstIdxOf lbrace content.data with
  | none => none
  | some start =>
      match lastIdxOf rbrace content.data with
      | none => none
      | some stop =>
          if stop ≤ start then none
          else jdecodeCarb (extractBetween content start stop)

/-- `parseAIResponse` (internal/server/sampling.go lines 148-182):
decode the completion envelope, extract its `content` string, locate the
first opening and last closing brace, and decode the substring; any failure
after content extraction yields the fallback response, while an
undecodable envelope or a missing `content` string is an error. -/
def parseAIResponse (aiOutput : String) : Except ParseErr CarbCalculationResponse :=
  match jparse aiOutput with
  | some (JValue.obj completionResp) =>
      match lookupLast completionResp "content" with
      | some (JValue.str content) =>
          match locatedCarb content with
          | none => .ok (createFallbackResponse content)
          | some resp => .ok resp
      | _ => .error ParseErr.noContent
  | _ => .error ParseErr.completionUnparseable

inductive CalcErr where
  | estimationUnavailable (msg : String)
  | parse (e : ParseErr)
deriving DecidableEq

/-- `CalculateCarbs` (internal/server/sampling.go lines 34-90).  Prompt
construction is irrelevant to the claims; the outcome of `callGateway` is an
environment input: an error models transport failure or non-success status
(the spec's EstimationUnavailable), a string is the returned payload. -/
def CalculateCarbs (gatewayOutcome : Except String String) :
    Except CalcErr CarbCalculationResponse :=
  match gatewayOutcome with
  | .error msg => .error (.estimationUnavailable msg)
  | .ok payload =>
      match parseAIResponse payload with
      | .error e => .error (.parse e)
      | .ok resp => .ok resp

/-! ## Timestamp text (Go `time.Parse(time.RFC3339, _)` and SQLite `DATE()`)

A stored value round-trips through text; `GetMeals` re-parses it and fails
on malformed text.  The shape and range checks below follow the RFC 3339
layout Go enforces (the day-in-month/leap-year refinement of Go's parser is
elided; no claim depends on it). -/

def twoDigitVal (a b : Char) : Nat := digitVal a * 10 + digitVal b

/-- `YYYY-MM-DD` shape (with month/day range checks) at the head of the
character list; anything may follow. -/
def dateShapeOk : List Char → Bool
  | y1 :: y2 :: y3 :: y4 :: c1 :: m1 :: m2 :: c2 :: d1 :: d2 :: _ =>
      isDigitCh y1 && isDigitCh y2 && isDigitCh y3 && isDigitCh y4 &&
      c1 = '-' && c2 = '-' &&
      isDigitCh m1 && isDigitCh m2 && isDigitCh d1 && isDigitCh d2 &&
      decide (1 ≤ twoDigitVal m1 m2) && decide (twoDigitVal m1 m2 ≤ 12) &&
      decide (1 ≤ twoDigitVal d1 d2) && decide (twoDigitVal d1 d2 ≤ 31)
  | _ => false

/-- Time-zone suffix: `Z` or `±HH:MM`. -/
def tzOk : List Char → Bool
  | ['Z'] => true
  | s :: h1 :: h2 :: c :: m1 :: m2 :: [] =>
      (s = '+' || s = '-') && c = ':' &&
      isDigitCh h1 && isDigitCh h2 && isDigitCh m1 && isDigitCh m2 &&
      decide (twoDigitVal h1 h2 ≤ 23) && decide (twoDigitVal m1 m2 ≤ 59)
  | _ => false

/-- Optional fractional seconds, then the time zone. -/
def fracThenTz : List Char → Bool
  | '.' :: rest =>
      match takeDigits rest with
      | ([], _) => false
      | (_ :: _, r2) => tzOk r2
  | cs => tzOk cs

/-- `THH:MM:SS` then optional fraction and mandatory zone. -/
def timePartOk : List Char → Bool
  | 'T' :: h1 :: h2 :: ':' :: mi1 :: mi2 :: ':' :: s1 :: s2 :: rest =>
      isDigitCh h1 && isDigitCh h2 && isDigitCh mi1 && isDigitCh mi2 &&
      isDigitCh s1 && isDigitCh s2 &&
      decide (twoDigitVal h1 h2 ≤ 23) && decide (twoDigitVal mi1 mi2 ≤ 59) &&
      decide (twoDigitVal s1 s2 ≤ 59) &&
      fracThenTz rest
  | _ => false

/-- Model of `time.Parse(time.RFC3339, s)` succeeding. -/
def isValidRFC3339 (s : String) : Bool :=
  dateShapeOk s.data && timePartOk (s.data.drop 10)

/-- Model of SQLite `DATE(timestamp)` on the stored text: the calendar-day
prefix for date-shaped text (followed by nothing or a time part), `none`
(SQL `NULL`) otherwise, which makes the comparison in the `WHERE` clause
false. -/
def sqliteDate (s : String) : Option String :=
  if dateShapeOk s.data &&
      (match s.data.drop 10 with
       | [] => true
       | c :: _ => c = 'T' || c = ' ')
  then some (String.mk (s.data.take 10)) else none

/-- SQLite compares TEXT values with memcmp; on UTF-8 this is code-point
order, modelled here as lexicographic order on the character lists. -/
def bytesLe : List Char → List Char → Bool
  | [], _ => true
  | _ :: _, [] => false
  | a :: as, b :: bs =>
      if a.toNat < b.toNat then true
      else if b.toNat < a.toNat then false
      else bytesLe as bs

def strLe (a b : String) : Bool := bytesLe a.data b.data

/-! ## Meal store (internal/storage/sqlite.go)

Two tables as created by `initSchema`: meal headers keyed by `id` (TEXT
PRIMARY KEY) and food rows keyed by an AUTOINCREMENT integer referencing
the owning meal.  `engineFail k` is an environment oracle for a
storage-engine failure of the k-th statement of the transaction. -/

structure MealRow where
  id : String
  description : String
  timestamp : String
  totalCarbs : ℚ
  confidence : String
  createdAt : String
  updatedAt : String
  source : String
deriving DecidableEq

structure FoodRow where
  rowId : Nat
  mealId : String
  name : String
  quantity : String
  carbsPer100g : ℚ
  estimatedCarbs : ℚ
  confidence : String
deriving DecidableEq

structure DB where
  meals : List MealRow
  foods : List FoodRow
  nextFoodId : Nat
deriving DecidableEq

def toMealRow (m : Meal) : MealRow :=
  ⟨m.id, m.description, m.timestamp, m.totalCarbs, m.confidence,
   m.createdAt, m.updatedAt, m.source⟩

/-- Food rows produced by the insert loop of `SaveMeal`, with consecutive
AUTOINCREMENT row ids starting at `nextId`. -/
def foodRowsFrom (mealId : String) (nextId : Nat) : List Food → List FoodRow
  | [] => []
  | f :: fs =>
      ⟨nextId, mealId, f.name, f.quantity, f.carbsPer100g, f.estimatedCarbs,
       f.confidence⟩ :: foodRowsFrom mealId (nextId + 1) fs

/-- `SaveMeal` (internal/storage/sqlite.go lines 72-106): one transaction
inserting the header (statement 0, failing on a duplicate primary key or an
engine error) and each food row (statements 1..n), then committing
(statement n+1); any failure rolls the whole transaction back. -/
def SaveMeal (engineFail : Nat → Bool) (db : DB) (meal : Meal) :
    Except String Unit × DB :=
  if engineFail 0 || db.meals.any (fun r => r.id = meal.id) then
    (.error "failed to insert meal", db)
  else if (List.range meal.foods.length).any (fun k => engineFail (k + 1)) then
    (.error "failed to insert food", db)
  else if engineFail (meal.foods.length + 1) then
    (.error "failed to commit", db)
  else
    (.ok (),
     ⟨db.meals ++ [toMealRow meal],
      db.foods ++ foodRowsFrom meal.id db.nextFoodId meal.foods,
      db.nextFoodId + meal.foods.length⟩)

/-- Stable insertion modelling `ORDER BY timestamp DESC` (SQLite TEXT
ordering; UTF-8 byte order coincides with code-point order). -/
def insertDesc (r : MealRow) : List MealRow → List MealRow
  | [] => [r]
  | x :: xs =>
      if strLe x.timestamp r.timestamp then r :: x :: xs else x :: insertDesc r xs

def insertionSortDesc : List MealRow → List MealRow
  | [] => []
  | x :: xs => insertDesc x (insertionSortDesc xs)

/-- Stable insertion modelling `ORDER BY id` on the foods table. -/
def insertAsc (f : FoodRow) : List FoodRow → List FoodRow
  | [] => [f]
  | x :: xs => if f.rowId ≤ x.rowId then f :: x :: xs else x :: insertAsc f xs

def insertionSortAsc : List FoodRow → List FoodRow
  | [] => []
  | x :: xs => insertAsc x (insertionSortAsc xs)

def toFood (fr : FoodRow) : Food :=
  ⟨fr.name, fr.quantity, fr.carbsPer100g, fr.estimatedCarbs, fr.confidence⟩

/-- `loadFoodsForMeal` (internal/storage/sqlite.go lines 171-203):
`SELECT ... FROM foods WHERE meal_id = ? ORDER BY id`. -/
def loadFoodsForMeal (db : DB) (mealId : String) : List Food :=
  (insertionSortAsc (db.foods.filter (fun f => f.mealId = mealId))).map toFood

/-- The optional, independent `AND DATE(timestamp) >= ?` / `<= ?` clauses
of `GetMeals`; an empty parameter means the clause is not added. -/
def passesDateFilters (startDate endDate : String) (r : MealRow) : Bool :=
  (startDate = "" ||
    (match sqliteDate r.timestamp with
     | some d => strLe startDate d
     | none => false)) &&
  (endDate = "" ||
    (match sqliteDate r.timestamp with
     | some d => strLe d endDate
     | none => false))

/-- The rows the `GetMeals` query hands to the scan loop: filtered, ordered
by timestamp descending, and capped by `LIMIT ?`.  SQLite treats a negative
LIMIT as "no upper bound". -/
def reachedRows (db : DB) (startDate endDate : String) (limit : Int) :
    List MealRow :=
  let sorted := insertionSortDesc (db.meals.filter (passesDateFilters startDate endDate))
  if limit < 0 then sorted else sorted.take limit.toNat

def rowTimesValid (r : MealRow) : Bool :=
  isValidRFC3339 r.timestamp && isValidRFC3339 r.createdAt &&
  isValidRFC3339 r.updatedAt

def rowToMeal (db : DB) (r : MealRow) : Meal :=
  ⟨r.id, r.description, r.timestamp, loadFoodsForMeal db r.id, r.totalCarbs,
   r.confidence, r.createdAt, r.updatedAt, r.source⟩

/-- The scan loop of `GetMeals` (internal/storage/sqlite.go lines 134-168):
each row's three stored timestamps are re-parsed; the first malformed one
aborts the whole call with an error. -/
def scanRows (db : DB) : List MealRow → Except String (List Meal)
  | [] => .ok []
  | r :: rs =>
      if ¬ isValidRFC3339 r.timestamp then .error "failed to parse timestamp"
      else if ¬ isValidRFC3339 r.createdAt then .error "failed to parse created_at"
      else if ¬ isValidRFC3339 r.updatedAt then .error "failed to parse updated_at"
      else
        match scanRows db rs with
        | .error e => .error e
        | .ok ms => .ok (rowToMeal db r :: ms)

/-- `GetMeals` (internal/storage/sqlite.go lines 108-169). -/
def GetMeals (db : DB) (startDate endDate : String) (limit : Int) :
    Except String (List Meal) :=
  scanRows db (reachedRows db startDate endDate limit)

/-! ## Orchestrator (internal/server/tools.go) -/

structure LogMealParams where
  description : String
  timestamp : String
deriving DecidableEq

inductive LogOutcome where
  | committed (m : Meal)
  | needsClarification (clarifications : List String)
      (preliminary : CarbCalculationResponse)
  | failed (msg : String)
deriving DecidableEq

def digitCh (d : Nat) : Char := Char.ofNat (48 + d)

def natReprAux : Nat → Nat → List Char
  | 0, _ => []
  | fuel + 1, n =>
      if n < 10 then [digitCh n]
      else natReprAux fuel (n / 10) ++ [digitCh (n % 10)]

/-- Decimal rendering of a natural number (model of `%d`). -/
def natRepr (n : Nat) : List Char := natReprAux (n + 1) n

/-- The meal identifier `fmt.Sprintf("meal_%d", time.Now().UnixNano())`
(internal/server/tools.go line 83); the nanosecond clock reading is an
environment input. -/
def mealIdOf (nowUnixNano : Nat) : String :=
  String.mk ("meal_".data ++ natRepr nowUnixNano)

/-- `logMeal` (internal/server/tools.go lines 39-106; `handleLogMeal` in
the go-mcp variant of tools.go has the same decision logic).  `nowTime` is
the RFC 3339 rendering of `time.Now()` and `nowUnixNano` the nanosecond
reading used for the id; the knowledge-graph notification
(`callMemoryService`) always returns nil and never affects the outcome. -/
def logMeal (gatewayOutcome : Except String String) (nowUnixNano : Nat)
    (nowTime : String) (engineFail : Nat → Bool) (p : LogMealParams)
    (db : DB) : LogOutcome × DB :=
  if p.description = "" then (.failed "meal description is required", db)
  else
    match (if p.timestamp = "" then some nowTime
           else if isValidRFC3339 p.timestamp then some p.timestamp
           else none) with
    | none => (.failed "invalid timestamp format", db)
    | some ts =>
        match CalculateCarbs gatewayOutcome with
        | .error _ => (.failed "failed to calculate carbs", db)
        | .ok carbResp =>
            if carbResp.needsMoreInfo && !carbResp.clarifications.isEmpty then
              (.needsClarification carbResp.clarifications carbResp, db)
            else
              let meal : Meal :=
                { id := mealIdOf nowUnixNano
                  description := p.description
                  timestamp := ts
                  foods := carbResp.foods
                  totalCarbs := carbResp.totalCarbs
                  confidence := carbResp.confidence
                  createdAt := nowTime
                  updatedAt := nowTime
                  source := "ai_parsed" }
              match SaveMeal engineFail db meal with
              | (.error _, db2) => (.failed "failed to save meal", db2)
              | (.ok _, db2) => (.committed meal, db2)

structure GetMealsParams where
  startDate : String
  endDate : String
  limit : Int
deriving DecidableEq

/-- `getMeals` (internal/server/tools.go lines 131-148; identical defaulting
in `handleGetMeals`): a non-positive limit (zero models the omitted field,
Go's zero value) is replaced by 20 before querying the store. -/
def getMeals (p : GetMealsParams) (db : DB) : Except String (List Meal) :=
  let lim := if p.limit ≤ 0 then 20 else p.limit
  GetMeals db p.startDate p.endDate lim

/-! ## Shared concrete fixtures for witnesses -/

def noFail : Nat → Bool := fun _ => false

def emptyDB : DB := ⟨[], [], 1⟩

/-- A gateway payload whose content carries carb JSON that decodes
verbatim (with `total_carbs` different from the food sum). -/
def verbatimPayload : String :=
  "\x7b\"content\":\"\x7b\\\"total_carbs\\\":9,\\\"foods\\\":[\x7b\\\"estimated_carbs\\\":4\x7d]\x7d\"\x7d"

/-- A gateway payload whose content holds no JSON object at all. -/
def proseOnlyPayload : String := "\x7b\"content\":\"no json here\"\x7d"

def sampleMeal : Meal :=
  ⟨"meal_1", "toast", "2024-01-15T10:00:00Z",
   [⟨"bread", "2 slices", 50, 30, "high"⟩, ⟨"butter", "1 tbsp", 0, 0, "high"⟩],
   30, "high", "2024-01-15T10:00:00Z", "2024-01-15T10:00:00Z", "ai_parsed"⟩

/-! ## Helper lemmas: the byte order and the stable sorts -/

theorem bytesLe_total : ∀ a b : List Char, bytesLe a b = true ∨ bytesLe b a = true := by
  intro a
  induction a with
  | nil => intro b; exact Or.inl rfl
  | cons x xs ih =>
      intro b
      cases b with
      | nil => exact Or.inr rfl
      | cons y ys =>
          simp only [bytesLe]
          rcases Nat.lt_trichotomy x.toNat y.toNat with h | h | h
          · simp [h]
          · simp only [h, Nat.lt_irrefl, if_false]
            exact ih ys
          · simp [h, Nat.lt_asymm h]

theorem bytesLe_trans :
    ∀ a b c : List Char, bytesLe a b = true → bytesLe b c = true →
      bytesLe a c = true := by
  intro a
  induction a with
  | nil => intro b c _ _; rfl
  | cons x xs ih =>
      intro b c hab hbc
      cases b with
      | nil => exact absurd hab (by simp [bytesLe])
      | cons y ys =>
          cases c with
          | nil => exact absurd hbc (by simp [bytesLe])
          | cons z zs =>
              simp only [bytesLe] at hab hbc ⊢
              by_cases hxy : x.toNat < y.toNat
              · by_cases hyz : y.toNat < z.toNat
                · simp [Nat.lt_trans hxy hyz]
                · by_cases hzy : z.toNat < y.toNat
                  · rw [if_neg hyz, if_pos hzy] at hbc; cases hbc
                  · have hxz : x.toNat < z.toNat := by omega
                    simp [hxz]
              · by_cases hyx : y.toNat < x.toNat
                · rw [if_neg hxy, if_pos hyx] at hab; cases hab
                · rw [if_neg hxy, if_neg hyx] at hab
                  by_cases hyz : y.toNat < z.toNat
                  · have hxz : x.toNat < z.toNat := by omega
                    simp [hxz]
                  · by_cases hzy : z.toNat < y.toNat
                    · rw [if_neg hyz, if_pos hzy] at hbc; cases hbc
                    · rw [if_neg hyz, if_neg hzy] at hbc
                      have hxz : ¬ x.toNat < z.toNat := by omega
                      have hzx : ¬ z.toNat < x.toNat := by omega
                      rw [if_neg hxz, if_neg hzx]
                      exact ih ys zs hab hbc

theorem strLe_of_not_strLe {a b : String} (h : ¬ strLe a b = true) :
    strLe b a = true := by
  rcases bytesLe_total a.data b.data with h2 | h2
  · exact absurd h2 h
  · exact h2

theorem strLe_trans {a b c : String} (h1 : strLe a b = true)
    (h2 : strLe b c = true) : strLe a c = true :=
  bytesLe_trans a.data b.data c.data h1 h2

theorem mem_insertDesc {r x : MealRow} {l : List MealRow} :
    x ∈ insertDesc r l ↔ x = r ∨ x ∈ l := by
  induction l with
  | nil => simp [insertDesc]
  | cons y ys ih =>
      by_cases h : strLe y.timestamp r.timestamp
      · simp [insertDesc, h]
      · simp [insertDesc, h, ih]
        tauto

theorem insertDesc_perm (r : MealRow) (l : List MealRow) :
    (insertDesc r l).Perm (r :: l) := by
  induction l with
  | nil => simp [insertDesc]
  | cons y ys ih =>
      by_cases h : strLe y.timestamp r.timestamp
      · simp [insertDesc, h]
      · simp only [insertDesc, h, if_false]
        exact (ih.cons y).trans (List.Perm.swap r y ys)

theorem insertionSortDesc_perm (l : List MealRow) :
    (insertionSortDesc l).Perm l := by
  induction l with
  | nil => simp [insertionSortDesc]
  | cons x xs ih =>
      exact (insertDesc_perm x (insertionSortDesc xs)).trans (ih.cons x)

theorem insertDesc_pairwise {r : MealRow} {l : List MealRow}
    (h : l.Pairwise (fun a b => strLe b.timestamp a.timestamp = true)) :
    (insertDesc r l).Pairwise (fun a b => strLe b.timestamp a.timestamp = true) := by
  induction l with
  | nil => simp [insertDesc]
  | cons y ys ih =>
      rcases List.pairwise_cons.mp h with ⟨hy, hys⟩
      by_cases hcmp : strLe y.timestamp r.timestamp
      · simp only [insertDesc, hcmp, if_true]
        refine List.pairwise_cons.mpr ⟨?_, h⟩
        intro z hz
        rcases List.mem_cons.mp hz with hz | hz
        · subst hz; exact hcmp
        · exact strLe_trans (hy z hz) hcmp
      · simp only [insertDesc, hcmp, if_false]
        refine List.pairwise_cons.mpr ⟨?_, ih hys⟩
        intro z hz
        rcases mem_insertDesc.mp hz with hz | hz
        · subst hz
          exact strLe_of_not_strLe hcmp
        · exact hy z hz

theorem insertionSortDesc_pairwise (l : List MealRow) :
    (insertionSortDesc l).Pairwise (fun a b => strLe b.timestamp a.timestamp = true) := by
  induction l with
  | nil => simp [insertionSortDesc]
  | cons x xs ih => exact insertDesc_pairwise ih

theorem insertAsc_perm (f : FoodRow) (l : List FoodRow) :
    (insertAsc f l).Perm (f :: l) := by
  induction l with
  | nil => simp [insertAsc]
  | cons y ys ih =>
      by_cases h : f.rowId ≤ y.rowId
      · simp [insertAsc, h]
      · simp only [insertAsc, h, if_false]
        exact (ih.cons y).trans (List.Perm.swap f y ys)

theorem insertionSortAsc_perm (l : List FoodRow) :
    (insertionSortAsc l).Perm l := by
  induction l with
  | nil => simp [insertionSortAsc]
  | cons x xs ih =>
      exact (insertAsc_perm x (insertionSortAsc xs)).trans (ih.cons x)

theorem insertAsc_of_le {f : FoodRow} {l : List FoodRow}
    (h : ∀ y ∈ l, f.rowId ≤ y.rowId) : insertAsc f l = f :: l := by
  cases l with
  | nil => rfl
  | cons y ys => simp [insertAsc, h y (by simp)]

theorem insertionSortAsc_of_sorted {l : List FoodRow}
    (h : l.Pairwise (fun a b => a.rowId ≤ b.rowId)) : insertionSortAsc l = l := by
  induction l with
  | nil => rfl
  | cons x xs ih =>
      rcases List.pairwise_cons.mp h with ⟨hx, hxs⟩
      rw [insertionSortAsc, ih hxs, insertAsc_of_le hx]

/-! ## Helper lemmas: the food rows written by SaveMeal -/

theorem foodRowsFrom_mem {mid : String} :
    ∀ (fs : List Food) (n : Nat) (r : FoodRow), r ∈ foodRowsFrom mid n fs →
      r.mealId = mid ∧ n ≤ r.rowId := by
  intro fs
  induction fs with
  | nil => intro n r h; simp [foodRowsFrom] at h
  | cons f ft ih =>
      intro n r h
      simp only [foodRowsFrom, List.mem_cons] at h
      rcases h with h | h
      · subst h; exact ⟨rfl, le_refl n⟩
      · rcases ih (n + 1) r h with ⟨h1, h2⟩
        exact ⟨h1, by omega⟩

theorem foodRowsFrom_pairwise {mid : String} :
    ∀ (fs : List Food) (n : Nat),
      (foodRowsFrom mid n fs).Pairwise (fun a b => a.rowId ≤ b.rowId) := by
  intro fs
  induction fs with
  | nil => intro n; simp [foodRowsFrom]
  | cons f ft ih =>
      intro n
      refine List.pairwise_cons.mpr ⟨?_, ih (n + 1)⟩
      intro r hr
      exact le_trans (Nat.le_succ n) (foodRowsFrom_mem ft (n + 1) r hr).2

theorem foodRowsFrom_filter_self {mid : String} :
    ∀ (fs : List Food) (n : Nat),
      (foodRowsFrom mid n fs).filter (fun f => f.mealId = mid) =
        foodRowsFrom mid n fs := by
  intro fs
  induction fs with
  | nil => intro n; rfl
  | cons f ft ih => intro n; simp [foodRowsFrom, List.filter_cons, ih (n + 1)]

theorem foodRowsFrom_map_toFood {mid : String} :
    ∀ (fs : List Food) (n : Nat), (foodRowsFrom mid n fs).map toFood = fs := by
  intro fs
  induction fs with
  | nil => intro n; rfl
  | cons f ft ih =>
      intro n
      simp only [foodRowsFrom, List.map_cons, ih (n + 1), toFood]

/-! ## Helper lemmas: the GetMeals scan loop -/

theorem scanRows_ok_of_valid (db : DB) :
    ∀ rows : List MealRow, (∀ r ∈ rows, rowTimesValid r = true) →
      scanRows db rows = .ok (rows.map (rowToMeal db)) := by
  intro rows
  induction rows with
  | nil => intro _; rfl
  | cons r rs ih =>
      intro h
      have hr := h r (by simp)
      simp only [rowTimesValid, Bool.and_eq_true] at hr
      simp only [scanRows, hr.1.1, hr.1.2, hr.2, not_true, if_false,
        ih (fun x hx => h x (by simp [hx])), List.map_cons]

theorem scanRows_ok_inv (db : DB) :
    ∀ (rows : List MealRow) (ms : List Meal), scanRows db rows = .ok ms →
      ms = rows.map (rowToMeal db) ∧ ∀ r ∈ rows, rowTimesValid r = true := by
  intro rows
  induction rows with
  | nil =>
      intro ms h
      simp only [scanRows] at h
      exact ⟨by injection h with h2; exact h2.symm, by simp⟩
  | cons r rs ih =>
      intro ms h
      simp only [scanRows] at h
      by_cases h1 : isValidRFC3339 r.timestamp
      · by_cases h2 : isValidRFC3339 r.createdAt
        · by_cases h3 : isValidRFC3339 r.updatedAt
          · simp only [h1, h2, h3, not_true, if_false] at h
            cases hrec : scanRows db rs with
            | error e => rw [hrec] at h; cases h
            | ok ms2 =>
                rw [hrec] at h
                injection h with h4
                rcases ih ms2 hrec with ⟨h5, h6⟩
                constructor
                · rw [← h4, h5, List.map_cons]
                · intro x hx
                  rcases List.mem_cons.mp hx with hx | hx
                  · subst hx; simp [rowTimesValid, h1, h2, h3]
                  · exact h6 x hx
          · simp [h1, h2, h3] at h
        · simp [h1, h2] at h
      · simp [h1] at h

theorem scanRows_error_of_invalid (db : DB) :
    ∀ rows : List MealRow, (∃ r ∈ rows, rowTimesValid r = false) →
      ∃ e, scanRows db rows = .error e := by
  intro rows h
  cases hscan : scanRows db rows with
  | error e => exact ⟨e, rfl⟩
  | ok ms =>
      rcases h with ⟨r, hr, hbad⟩
      have := (scanRows_ok_inv db rows ms hscan).2 r hr
      rw [this] at hbad
      cases hbad

/-- C10: a get_meals request with an omitted (zero), zero, or negative
limit parameter is executed against the store with the default limit 20; a
positive supplied limit is passed through unchanged
(internal/server/tools.go lines 131-148). -/
theorem getMeals_default_limit (p : GetMealsParams) (db : DB) :
    (p.limit ≤ 0 → getMeals p db = GetMeals db p.startDate p.endDate 20) ∧
    (0 < p.limit → getMeals p db = GetMeals db p.startDate p.endDate p.limit) := by
  constructor
  · intro h
    simp [getMeals, h]
  · intro h
    simp [getMeals, not_le.mpr h]

theorem getMeals_default_limit_witness :
    ((⟨"", "", -3⟩ : GetMealsParams).limit ≤ 0 ∧
      getMeals ⟨"", "", -3⟩ emptyDB = GetMeals emptyDB "" "" 20) ∧
    (0 < (⟨"", "", 7⟩ : GetMealsParams).limit ∧
      getMeals ⟨"", "", 7⟩ emptyDB = GetMeals emptyDB "" "" 7) :=
  ⟨⟨by decide, (getMeals_default_limit ⟨"", "", -3⟩ emptyDB).1 (by decide)⟩,
   ⟨by decide, (getMeals_default_limit ⟨"", "", 7⟩ emptyDB).2 (by decide)⟩⟩

/-- C4: SaveMeal is atomic over the transactional model: a duplicate
identifier fails the insert (no upsert) and leaves the store unchanged, any
storage-engine error likewise leaves no partial state, and on success the
header and every food row are all visible
(internal/storage/sqlite.go lines 72-106). -/
theorem SaveMeal_atomic (engineFail : Nat → Bool) (db : DB) (meal : Meal) :
    (meal.id ∈ db.meals.map (fun r => r.id) →
      (SaveMeal engineFail db meal).1 = .error "failed to insert meal" ∧
      (SaveMeal engineFail db meal).2 = db) ∧
    (∀ e, (SaveMeal engineFail db meal).1 = .error e →
      (SaveMeal engineFail db meal).2 = db) ∧
    ((SaveMeal engineFail db meal).1 = .ok () →
      (SaveMeal engineFail db meal).2.meals = db.meals ++ [toMealRow meal] ∧
      (SaveMeal engineFail db meal).2.foods =
        db.foods ++ foodRowsFrom meal.id db.nextFoodId meal.foods) := by
  refine ⟨?_, ?_, ?_⟩
  · intro hmem
    have hany : db.meals.any (fun r => r.id = meal.id) = true := by
      rcases List.mem_map.mp hmem with ⟨r, hr, hid⟩
      exact List.any_eq_true.mpr ⟨r, hr, by simp [hid]⟩
    simp [SaveMeal, hany]
  · intro e he
    unfold SaveMeal at he ⊢
    split_ifs at he ⊢
    all_goals simp_all
  · intro hok
    unfold SaveMeal at hok ⊢
    split_ifs at hok ⊢
    all_goals simp_all

theorem SaveMeal_atomic_witness :
    sampleMeal.id ∈ (DB.mk [toMealRow sampleMeal] [] 1).meals.map (fun r => r.id) ∧
    (SaveMeal noFail ⟨[toMealRow sampleMeal], [], 1⟩ sampleMeal).1 =
      .error "failed to insert meal" ∧
    (SaveMeal noFail ⟨[toMealRow sampleMeal], [], 1⟩ sampleMeal).2 =
      ⟨[toMealRow sampleMeal], [], 1⟩ :=
  ⟨by decide,
   (SaveMeal_atomic noFail ⟨[toMealRow sampleMeal], [], 1⟩ sampleMeal).1 (by decide)⟩

/-- C8: if any meal row reached by a GetMeals query (after filtering,
ordering, and the limit) has a stored timestamp, created_at, or updated_at
that fails to parse, the whole call fails with an error instead of skipping
the row or returning partial results
(internal/storage/sqlite.go lines 135-168). -/
theorem GetMeals_corrupt_fails (db : DB) (startDate endDate : String)
    (limit : Int)
    (h : ∃ r ∈ reachedRows db startDate endDate limit, rowTimesValid r = false) :
    ∃ e, GetMeals db startDate endDate limit = .error e := by
  unfold GetMeals
  exact scanRows_error_of_invalid db _ h

theorem GetMeals_corrupt_fails_witness :
    (∃ r ∈ reachedRows ⟨[⟨"meal_9", "x", "garbage", 1, "low", "garbage",
        "garbage", "manual"⟩], [], 1⟩ "" "" 5, rowTimesValid r = false) ∧
    ∃ e, GetMeals ⟨[⟨"meal_9", "x", "garbage", 1, "low", "garbage",
        "garbage", "manual"⟩], [], 1⟩ "" "" 5 = .error e :=
  ⟨by decide,
   GetMeals_corrupt_fails ⟨[⟨"meal_9", "x", "garbage", 1, "low", "garbage",
     "garbage", "manual"⟩], [], 1⟩ "" "" 5 (by decide)⟩

/-- C7 counterexample: a gateway payload that is not a JSON object makes
`parseAIResponse` return an error, so it is not the case that every
gateway payload yields a CarbEstimate. -/
theorem parseAIResponse_error_cex :
    parseAIResponse "not json" = .error ParseErr.completionUnparseable := rfl

/-- C7 amended: `parseAIResponse` succeeds exactly when the gateway payload
decodes as a JSON object with a string `content` field; carb-JSON parsing
failures inside the content are then always recovered via the fallback,
while an undecodable envelope or missing content is surfaced as an error
(internal/server/sampling.go lines 148-182). -/
theorem parseAIResponse_ok_iff_envelope (payload : String) :
    (∃ r, parseAIResponse payload = .ok r) ↔
      (∃ fs content, jparse payload = some (JValue.obj fs) ∧
        lookupLast fs "content" = some (JValue.str content)) := by
  constructor
  · rintro ⟨r, hr⟩
    unfold parseAIResponse at hr
    split at hr
    · next completionResp heq =>
        split at hr
        · next content heq2 => exact ⟨completionResp, content, heq, heq2⟩
        · cases hr
    · cases hr
  · rintro ⟨fs, content, hj, hc⟩
    simp only [parseAIResponse, hj, hc]
    cases hloc : locatedCarb content with
    | none => exact ⟨createFallbackResponse content, rfl⟩
    | some resp => exact ⟨resp, rfl⟩

/-- C3: whenever the envelope decodes but no parseable JSON object can be
located in its content (no opening brace, no closing brace after the first
opening one, or an extracted substring that fails to decode), the result is
exactly the deterministic fallback estimate: one food item, low confidence,
needsMoreInfo, and the three fixed clarifying questions about portion
size, preparation method, and condiments
(internal/server/sampling.go lines 148-206). -/
theorem parseAIResponse_fallback_shape (payload content : String)
    (fs : List (String × JValue))
    (henv : jparse payload = some (JValue.obj fs))
    (hcontent : lookupLast fs "content" = some (JValue.str content))
    (hnone : firstIdxOf lbrace content.data = none ∨
             lastIdxOf rbrace content.data = none ∨
             (∀ start stop, firstIdxOf lbrace content.data = some start →
                lastIdxOf rbrace content.data = some stop →
                stop ≤ start ∨ jdecodeCarb (extractBetween content start stop) = none)) :
    parseAIResponse payload = .ok (createFallbackResponse content) ∧
    (createFallbackResponse content).foods.length = 1 ∧
    (createFallbackResponse content).confidence = LowConfidence ∧
    (createFallbackResponse content).needsMoreInfo = true ∧
    (createFallbackResponse content).clarifications =
      ["Could you provide more specific details about portion sizes?",
       "How was the food prepared (grilled, fried, etc.)?",
       "Were there any sauces or condiments?"] := by
  have hloc : locatedCarb content = none := by
    unfold locatedCarb
    cases hf : firstIdxOf lbrace content.data with
    | none => rfl
    | some start =>
        cases hl : lastIdxOf rbrace content.data with
        | none => rfl
        | some stop =>
            rcases hnone with h | h | h
            · rw [hf] at h; cases h
            · rw [hl] at h; cases h
            · rcases h start stop hf hl with h | h
              · simp [h]
              · by_cases hle : stop ≤ start
                · simp [hle]
                · simp [hle, h]
  refine ⟨?_, rfl, rfl, rfl, rfl⟩
  simp only [parseAIResponse, henv, hcontent, hloc]

theorem parseAIResponse_fallback_shape_witness :
    jparse proseOnlyPayload =
      some (JValue.obj [("content", JValue.str "no json here")]) ∧
    firstIdxOf lbrace "no json here".data = none ∧
    parseAIResponse proseOnlyPayload = .ok (createFallbackResponse "no json here") :=
  ⟨rfl, rfl,
   (parseAIResponse_fallback_shape proseOnlyPayload "no json here"
      [("content", JValue.str "no json here")] rfl rfl (Or.inl rfl)).1⟩

/-- Inversion for successful parses: the result is either the fallback
estimate or the carb JSON decoded verbatim from some extracted substring;
no further validation is applied. -/
theorem parseAIResponse_ok_cases (payload : String) (r : CarbCalculationResponse)
    (h : parseAIResponse payload = .ok r) :
    (∃ content, r = createFallbackResponse content) ∨
      (∃ s, jdecodeCarb s = some r) := by
  unfold parseAIResponse at h
  split at h
  · next completionResp heq =>
      split at h
      · next content heq2 =>
          cases hloc : locatedCarb content with
          | none =>
              rw [hloc] at h
              injection h with h2
              exact Or.inl ⟨content, h2.symm⟩
          | some resp =>
              rw [hloc] at h
              injection h with h2
              subst h2
              unfold locatedCarb at hloc
              split at hloc
              · exact Option.noConfusion hloc
              · next start heqf =>
                  split at hloc
                  · exact Option.noConfusion hloc
                  · next stop heql =>
                      split_ifs at hloc
                      exact Or.inr ⟨extractBetween content start stop, hloc⟩
      · cases h
  · cases h

/-- C2 counterexample: a successfully parsed upstream payload can carry a
`total_carbs` value different from the sum of its foods' estimated carbs;
`CalculateCarbs` returns it unvalidated (here totalCarbs 9 against a food
sum of 4), refuting the claimed structural invariant. -/
theorem CalculateCarbs_sum_cex :
    CalculateCarbs (.ok verbatimPayload) =
      .ok ⟨[⟨"", "", 0, 4, ""⟩], 9, "", [], false⟩ ∧
    ((⟨[⟨"", "", 0, 4, ""⟩], 9, "", [], false⟩ : CarbCalculationResponse).totalCarbs ≠
      (((⟨[⟨"", "", 0, 4, ""⟩], 9, "", [], false⟩ :
          CarbCalculationResponse).foods.map (fun f => f.estimatedCarbs)).sum)) := by
  refine ⟨rfl, ?_⟩
  simp only [List.map_cons, List.map_nil, List.sum_cons, List.sum_nil]
  norm_num

/-- C2 amended: for every gateway outcome, `CalculateCarbs` either fails
(with the gateway's EstimationUnavailable or an envelope-parse error) or
returns an estimate that is either the upstream carb JSON decoded verbatim
(no totalCarbs-versus-sum validation is performed) or the fallback
estimate, whose totalCarbs does equal the sum of its foods' estimates
(internal/server/sampling.go lines 34-90 and 148-206). -/
theorem CalculateCarbs_verbatim_or_fallback (gw : Except String String)
    (r : CarbCalculationResponse) (h : CalculateCarbs gw = .ok r) :
    ((∃ content, r = createFallbackResponse content) ∨
      (∃ s, jdecodeCarb s = some r)) ∧
    (∀ c : String, (createFallbackResponse c).totalCarbs =
      ((createFallbackResponse c).foods.map (fun f => f.estimatedCarbs)).sum) := by
  constructor
  · cases gw with
    | error msg => simp [CalculateCarbs] at h
    | ok payload =>
        have h2 : (match parseAIResponse payload with
            | Except.error e =>
                (Except.error (CalcErr.parse e) :
                  Except CalcErr CarbCalculationResponse)
            | Except.ok resp => Except.ok resp) = Except.ok r := h
        cases hp : parseAIResponse payload with
        | error e => rw [hp] at h2; cases h2
        | ok r2 =>
            rw [hp] at h2
            injection h2 with h3
            subst h3
            exact parseAIResponse_ok_cases payload r2 hp
  · intro c
    simp [createFallbackResponse]

theorem CalculateCarbs_verbatim_or_fallback_witness :
    CalculateCarbs (.ok proseOnlyPayload) =
      .ok (createFallbackResponse "no json here") ∧
    ((∃ content, createFallbackResponse "no json here" =
        createFallbackResponse content) ∨
      (∃ s, jdecodeCarb s = some (createFallbackResponse "no json here"))) :=
  ⟨rfl,
   (CalculateCarbs_verbatim_or_fallback (.ok proseOnlyPayload)
      (createFallbackResponse "no json here") rfl).1⟩

/-- C6 counterexample: `GetMeals` forwards the limit into SQLite's `LIMIT`,
where a negative bound means "no limit": with limit -1 over a one-meal
store it returns one meal, more than the claimed at-most-N bound. -/
theorem GetMeals_negative_limit_cex :
    GetMeals ⟨[toMealRow sampleMeal], [], 1⟩ "" "" (-1) =
      .ok [⟨"meal_1", "toast", "2024-01-15T10:00:00Z", [], 30, "high",
            "2024-01-15T10:00:00Z", "2024-01-15T10:00:00Z", "ai_parsed"⟩] ∧
    ¬ ((([(⟨"meal_1", "toast", "2024-01-15T10:00:00Z", [], 30, "high",
            "2024-01-15T10:00:00Z", "2024-01-15T10:00:00Z", "ai_parsed"⟩ :
            Meal)] : List Meal).length : Int) ≤ -1) :=
  ⟨rfl, by decide⟩

/-- C6 amended: for every store state and every non-negative N, `GetMeals`
with limit N returns at most N meals, ordered non-increasingly by
timestamp, and the optional start/end date filters independently restrict
results to an inclusive calendar-day range on the timestamp's date
component; a negative N is passed to SQLite's LIMIT and means "no bound"
(internal/storage/sqlite.go lines 108-132). -/
theorem GetMeals_bounds (db : DB) (startDate endDate : String) (limit : Int)
    (ms : List Meal) (hlim : 0 ≤ limit)
    (h : GetMeals db startDate endDate limit = .ok ms) :
    (ms.length : Int) ≤ limit ∧
    ms.Pairwise (fun a b => strLe b.timestamp a.timestamp = true) ∧
    (∀ m ∈ ms,
      (startDate ≠ "" →
        ∃ d, sqliteDate m.timestamp = some d ∧ strLe startDate d = true) ∧
      (endDate ≠ "" →
        ∃ d, sqliteDate m.timestamp = some d ∧ strLe d endDate = true)) := by
  unfold GetMeals at h
  rcases scanRows_ok_inv db _ ms h with ⟨hms, _⟩
  have hreach : reachedRows db startDate endDate limit =
      (insertionSortDesc
        (db.meals.filter (passesDateFilters startDate endDate))).take limit.toNat := by
    unfold reachedRows
    simp [not_lt.mpr hlim]
  refine ⟨?_, ?_, ?_⟩
  · rw [hms, List.length_map, hreach]
    have hle : ((insertionSortDesc
        (db.meals.filter (passesDateFilters startDate endDate))).take
          limit.toNat).length ≤ limit.toNat := by
      simp [List.length_take]
    calc (((insertionSortDesc
        (db.meals.filter (passesDateFilters startDate endDate))).take
          limit.toNat).length : Int)
        ≤ (limit.toNat : Int) := by exact_mod_cast hle
      _ = limit := Int.toNat_of_nonneg hlim
  · rw [hms]
    apply List.pairwise_map.mpr
    have hsorted :=
      insertionSortDesc_pairwise (db.meals.filter (passesDateFilters startDate endDate))
    have htake := List.Pairwise.sublist (List.take_sublist limit.toNat _) hsorted
    rw [hreach]
    exact htake
  · intro m hm
    rw [hms] at hm
    rcases List.mem_map.mp hm with ⟨r, hr, hmr⟩
    rw [hreach] at hr
    have hr2 := List.take_subset _ _ hr
    have hr3 := (insertionSortDesc_perm _).mem_iff.mp hr2
    have hpass := (List.mem_filter.mp hr3).2
    unfold passesDateFilters at hpass
    rw [Bool.and_eq_true] at hpass
    rcases hpass with ⟨hp1, hp2⟩
    have hts : m.timestamp = r.timestamp := by rw [← hmr]; rfl
    constructor
    · intro hne
      rw [Bool.or_eq_true] at hp1
      rcases hp1 with hp1 | hp1
      · exact absurd (by simpa using hp1) hne
      · rw [hts]
        cases hd : sqliteDate r.timestamp with
        | none => rw [hd] at hp1; cases hp1
        | some d =>
            rw [hd] at hp1
            exact ⟨d, rfl, hp1⟩
    · intro hne
      rw [Bool.or_eq_true] at hp2
      rcases hp2 with hp2 | hp2
      · exact absurd (by simpa using hp2) hne
      · rw [hts]
        cases hd : sqliteDate r.timestamp with
        | none => rw [hd] at hp2; cases hp2
        | some d =>
            rw [hd] at hp2
            exact ⟨d, rfl, hp2⟩

theorem GetMeals_bounds_witness :
    (0 : Int) ≤ 5 ∧
    GetMeals ⟨[toMealRow sampleMeal], [], 1⟩ "2024-01-01" "2024-12-31" 5 =
      .ok [⟨"meal_1", "toast", "2024-01-15T10:00:00Z", [], 30, "high",
            "2024-01-15T10:00:00Z", "2024-01-15T10:00:00Z", "ai_parsed"⟩] ∧
    ((([(⟨"meal_1", "toast", "2024-01-15T10:00:00Z", [], 30, "high",
          "2024-01-15T10:00:00Z", "2024-01-15T10:00:00Z", "ai_parsed"⟩ :
          Meal)] : List Meal).length : Int) ≤ 5 ∧
      ([(⟨"meal_1", "toast", "2024-01-15T10:00:00Z", [], 30, "high",
          "2024-01-15T10:00:00Z", "2024-01-15T10:00:00Z", "ai_parsed"⟩ :
          Meal)] : List Meal).Pairwise
            (fun a b => strLe b.timestamp a.timestamp = true) ∧
      (∀ m ∈ ([(⟨"meal_1", "toast", "2024-01-15T10:00:00Z", [], 30, "high",
          "2024-01-15T10:00:00Z", "2024-01-15T10:00:00Z", "ai_parsed"⟩ :
          Meal)] : List Meal),
        ("2024-01-01" ≠ "" →
          ∃ d, sqliteDate m.timestamp = some d ∧ strLe "2024-01-01" d = true) ∧
        ("2024-12-31" ≠ "" →
          ∃ d, sqliteDate m.timestamp = some d ∧ strLe d "2024-12-31" = true))) :=
  ⟨by decide, rfl,
   GetMeals_bounds ⟨[toMealRow sampleMeal], [], 1⟩ "2024-01-01" "2024-12-31" 5
     [⟨"meal_1", "toast", "2024-01-15T10:00:00Z", [], 30, "high",
       "2024-01-15T10:00:00Z", "2024-01-15T10:00:00Z", "ai_parsed"⟩]
     (by decide) rfl⟩

/-! ## Helper lemmas: decimal rendering of the meal identifier -/

theorem digitVal_digitCh {d : Nat} (h : d < 10) : digitVal (digitCh d) = d := by
  have h1 : (digitCh d).toNat = 48 + d := by
    have hv : Nat.isValidChar (48 + d) := Or.inl (by omega)
    simp [digitCh, Char.ofNat, hv, Char.toNat, Char.ofNatAux]
    rfl
  simp [digitVal, h1]

theorem digitsVal_append (acc : Nat) (a b : List Char) :
    digitsVal acc (a ++ b) = digitsVal (digitsVal acc a) b := by
  induction a generalizing acc with
  | nil => rfl
  | cons c cs ih =>
      rw [List.cons_append]
      rw [show digitsVal acc (c :: (cs ++ b)) =
            digitsVal (acc * 10 + digitVal c) (cs ++ b) from rfl]
      rw [show digitsVal acc (c :: cs) =
            digitsVal (acc * 10 + digitVal c) cs from rfl]
      exact ih (acc * 10 + digitVal c)

theorem natReprAux_val :
    ∀ fuel n, n < fuel → digitsVal 0 (natReprAux fuel n) = n := by
  intro fuel
  induction fuel with
  | zero => intro n h; exact absurd h (Nat.not_lt_zero n)
  | succ f ih =>
      intro n h
      by_cases h10 : n < 10
      · rw [natReprAux, if_pos h10]
        rw [show digitsVal 0 [digitCh n] = 0 * 10 + digitVal (digitCh n) from rfl]
        rw [digitVal_digitCh h10]
        omega
      · rw [natReprAux, if_neg h10]
        rw [digitsVal_append]
        have hdiv : n / 10 < f := by
          have hlt : n / 10 < n := Nat.div_lt_self (by omega) (by omega)
          omega
        rw [ih (n / 10) hdiv]
        rw [show digitsVal (n / 10) [digitCh (n % 10)] =
              (n / 10) * 10 + digitVal (digitCh (n % 10)) from rfl,
            digitVal_digitCh (Nat.mod_lt n (by omega))]
        omega

theorem natRepr_injective {n m : Nat} (h : natRepr n = natRepr m) : n = m := by
  calc n = digitsVal 0 (natRepr n) := (natReprAux_val (n + 1) n (Nat.lt_succ_self n)).symm
    _ = digitsVal 0 (natRepr m) := by rw [h]
    _ = m := natReprAux_val (m + 1) m (Nat.lt_succ_self m)

set_option maxHeartbeats 1600000 in
/-- C9 counterexample: the identifier is a pure function of the nanosecond
clock reading, so two log-meal requests observing the same `UnixNano` value
construct two distinct meals (different descriptions) carrying the same id,
refuting unconditional global uniqueness. -/
theorem mealId_collision_cex :
    (logMeal (.ok verbatimPayload) 5 "2024-01-15T10:00:00Z" noFail
        ⟨"toast", ""⟩ emptyDB).1 =
      .committed ⟨"meal_5", "toast", "2024-01-15T10:00:00Z",
        [⟨"", "", 0, 4, ""⟩], 9, "", "2024-01-15T10:00:00Z",
        "2024-01-15T10:00:00Z", "ai_parsed"⟩ ∧
    (logMeal (.ok verbatimPayload) 5 "2024-01-15T10:00:00Z" noFail
        ⟨"eggs", ""⟩ emptyDB).1 =
      .committed ⟨"meal_5", "eggs", "2024-01-15T10:00:00Z",
        [⟨"", "", 0, 4, ""⟩], 9, "", "2024-01-15T10:00:00Z",
        "2024-01-15T10:00:00Z", "ai_parsed"⟩ ∧
    (⟨"meal_5", "toast", "2024-01-15T10:00:00Z", [⟨"", "", 0, 4, ""⟩], 9, "",
      "2024-01-15T10:00:00Z", "2024-01-15T10:00:00Z", "ai_parsed"⟩ : Meal).id =
    (⟨"meal_5", "eggs", "2024-01-15T10:00:00Z", [⟨"", "", 0, 4, ""⟩], 9, "",
      "2024-01-15T10:00:00Z", "2024-01-15T10:00:00Z", "ai_parsed"⟩ : Meal).id ∧
    (⟨"meal_5", "toast", "2024-01-15T10:00:00Z", [⟨"", "", 0, 4, ""⟩], 9, "",
      "2024-01-15T10:00:00Z", "2024-01-15T10:00:00Z", "ai_parsed"⟩ : Meal) ≠
    (⟨"meal_5", "eggs", "2024-01-15T10:00:00Z", [⟨"", "", 0, 4, ""⟩], 9, "",
      "2024-01-15T10:00:00Z", "2024-01-15T10:00:00Z", "ai_parsed"⟩ : Meal) :=
  ⟨rfl, rfl, rfl, by decide⟩

/-- C9 amended: meal identifiers are injective in the creation instant's
`UnixNano` reading: meals created at distinct nanosecond instants always
receive distinct ids (`fmt.Sprintf("meal_%d", ...)` with an injective
decimal rendering); uniqueness therefore rests on the clock never repeating
a nanosecond value, and a same-instant collision yields identical ids
(which the primary key then rejects at save time). -/
theorem mealIdOf_injective (n m : Nat) (h : n ≠ m) : mealIdOf n ≠ mealIdOf m := by
  intro he
  apply h
  apply natRepr_injective
  have hdata : "meal_".data ++ natRepr n = "meal_".data ++ natRepr m := by
    injection he
  exact List.append_cancel_left hdata

theorem mealIdOf_injective_witness :
    (1 : Nat) ≠ 2 ∧ mealIdOf 1 ≠ mealIdOf 2 :=
  ⟨by decide, mealIdOf_injective 1 2 (by decide)⟩

/-- C1: for every log-meal request whose estimation call succeeds (and
whose inputs pass validation, with a fresh identifier and a healthy storage
engine), the meal is constructed and persisted via SaveMeal if and only if
the estimate has needsMoreInfo false or an empty clarifications list;
otherwise the request terminates with the clarification questions plus the
preliminary estimate and no meal row is written
(internal/server/tools.go lines 39-106). -/
theorem logMeal_commit_iff (gatewayOutcome : Except String String)
    (nowUnixNano : Nat) (nowTime : String) (engineFail : Nat → Bool)
    (p : LogMealParams) (db : DB) (e : CarbCalculationResponse)
    (hdesc : p.description ≠ "")
    (hts : p.timestamp = "" ∨ isValidRFC3339 p.timestamp = true)
    (hcalc : CalculateCarbs gatewayOutcome = .ok e)
    (hfresh : mealIdOf nowUnixNano ∉ db.meals.map (fun r => r.id))
    (hengine : ∀ k, engineFail k = false) :
    ((e.needsMoreInfo = false ∨ e.clarifications = []) →
      ∃ m : Meal,
        (logMeal gatewayOutcome nowUnixNano nowTime engineFail p db).1 =
          .committed m ∧
        (logMeal gatewayOutcome nowUnixNano nowTime engineFail p db).2.meals =
          db.meals ++ [toMealRow m] ∧
        m.id = mealIdOf nowUnixNano ∧ m.description = p.description ∧
        m.foods = e.foods ∧ m.totalCarbs = e.totalCarbs ∧
        m.confidence = e.confidence ∧ m.source = "ai_parsed") ∧
    ((e.needsMoreInfo = true ∧ e.clarifications ≠ []) →
      (logMeal gatewayOutcome nowUnixNano nowTime engineFail p db).1 =
        .needsClarification e.clarifications e ∧
      (logMeal gatewayOutcome nowUnixNano nowTime engineFail p db).2 = db) := by
  have hts2 : (if p.timestamp = "" then some nowTime
      else if isValidRFC3339 p.timestamp then some p.timestamp else none) =
      some (if p.timestamp = "" then nowTime else p.timestamp) := by
    rcases hts with h | h
    · simp [h]
    · by_cases h2 : p.timestamp = "" <;> simp [h2, h]
  constructor
  · intro hcond
    have hcl : (e.needsMoreInfo && !e.clarifications.isEmpty) = false := by
      rcases hcond with h | h <;> simp [h]
    have hany : db.meals.any (fun r => r.id = mealIdOf nowUnixNano) = false := by
      rw [Bool.eq_false_iff]
      intro hc
      rcases List.any_eq_true.mp hc with ⟨r, hr, hid⟩
      exact hfresh (List.mem_map.mpr ⟨r, hr, by simpa using hid⟩)
    have hrange : (List.range e.foods.length).any (fun k => engineFail (k + 1)) = false := by
      simp [hengine]
    refine ⟨{ id := mealIdOf nowUnixNano, description := p.description,
              timestamp := if p.timestamp = "" then nowTime else p.timestamp,
              foods := e.foods, totalCarbs := e.totalCarbs,
              confidence := e.confidence, createdAt := nowTime,
              updatedAt := nowTime, source := "ai_parsed" }, ?_, ?_, rfl, rfl,
            rfl, rfl, rfl, rfl⟩ <;>
      simp [logMeal, hdesc, hts2, hcalc, hcl, SaveMeal, hengine, hany, hrange,
        toMealRow]
  · rintro ⟨hn, hc⟩
    have hcl : (e.needsMoreInfo && !e.clarifications.isEmpty) = true := by
      simp [hn, hc]
    constructor <;>
      simp [logMeal, hdesc, hts2, hcalc, hcl]

theorem logMeal_commit_iff_witness :
    (("a potato" : String) ≠ "" ∧
      CalculateCarbs (.ok proseOnlyPayload) =
        .ok (createFallbackResponse "no json here") ∧
      (createFallbackResponse "no json here").needsMoreInfo = true ∧
      (createFallbackResponse "no json here").clarifications ≠ []) ∧
    (logMeal (.ok proseOnlyPayload) 5 "2024-01-15T10:00:00Z" noFail
        ⟨"a potato", ""⟩ emptyDB).1 =
      .needsClarification (createFallbackResponse "no json here").clarifications
        (createFallbackResponse "no json here") ∧
    (logMeal (.ok proseOnlyPayload) 5 "2024-01-15T10:00:00Z" noFail
        ⟨"a potato", ""⟩ emptyDB).2 = emptyDB :=
  ⟨⟨by decide, rfl, rfl, by decide⟩,
   (logMeal_commit_iff (.ok proseOnlyPayload) 5 "2024-01-15T10:00:00Z" noFail
      ⟨"a potato", ""⟩ emptyDB (createFallbackResponse "no json here")
      (by decide) (Or.inl rfl) rfl (by simp [emptyDB]) (fun _ => rfl)).2
    ⟨rfl, by decide⟩⟩

/-! ## Helper lemmas: round-trip through the store -/

theorem timePartOk_head {l : List Char} (h : timePartOk l = true) :
    ∃ rest, l = 'T' :: rest := by
  unfold timePartOk at h
  split at h
  · next h1 h2 mi1 mi2 s1 s2 rest => exact ⟨_, rfl⟩
  · cases h

theorem sqliteDate_of_valid {s : String} (h : isValidRFC3339 s = true) :
    sqliteDate s = some (String.mk (s.data.take 10)) := by
  rw [isValidRFC3339, Bool.and_eq_true] at h
  obtain ⟨hd, ht⟩ := h
  obtain ⟨rest, hrest⟩ := timePartOk_head ht
  unfold sqliteDate
  rw [hrest]
  simp [hd]

theorem passesDateFilters_of (startD endD : String) (r : MealRow)
    (hv : isValidRFC3339 r.timestamp = true)
    (hs : startD = "" ∨ strLe startD (String.mk (r.timestamp.data.take 10)) = true)
    (he : endD = "" ∨ strLe (String.mk (r.timestamp.data.take 10)) endD = true) :
    passesDateFilters startD endD r = true := by
  unfold passesDateFilters
  rw [sqliteDate_of_valid hv]
  rw [Bool.and_eq_true, Bool.or_eq_true, Bool.or_eq_true]
  constructor
  · rcases hs with h | h
    · left; simp [h]
    · right; exact h
  · rcases he with h | h
    · left; simp [h]
    · right; exact h

theorem SaveMeal_ok_inv {engineFail : Nat → Bool} {db : DB} {meal : Meal}
    {u : Unit} {db2 : DB}
    (h : SaveMeal engineFail db meal = (.ok u, db2)) :
    db2.meals = db.meals ++ [toMealRow meal] ∧
    db2.foods = db.foods ++ foodRowsFrom meal.id db.nextFoodId meal.foods := by
  unfold SaveMeal at h
  split_ifs at h
  all_goals simp_all [Prod.ext_iff]
  rw [← h]
  exact ⟨rfl, rfl⟩

theorem loadFoodsForMeal_saved (db2 : DB) (dbFoods : List FoodRow)
    (mid : String) (n : Nat) (fs : List Food)
    (hf : db2.foods = dbFoods ++ foodRowsFrom mid n fs)
    (hforeign : ∀ f ∈ dbFoods, ¬ f.mealId = mid) :
    loadFoodsForMeal db2 mid = fs := by
  unfold loadFoodsForMeal
  rw [hf, List.filter_append]
  rw [List.filter_eq_nil_iff.mpr (by intro f hfm; simpa using hforeign f hfm),
      List.nil_append, foodRowsFrom_filter_self,
      insertionSortAsc_of_sorted (foodRowsFrom_pairwise fs n),
      foodRowsFrom_map_toFood]

theorem rowToMeal_saved (db2 : DB) (meal : Meal)
    (hload : loadFoodsForMeal db2 meal.id = meal.foods) :
    rowToMeal db2 (toMealRow meal) = meal := by
  cases meal
  simp only [rowToMeal, toMealRow] at hload ⊢
  simp [hload]

/-- C5: a meal successfully saved by SaveMeal is returned by a subsequent
GetMeals call — equal in every field, with the full foods list in original
insertion order — whenever the date filters (if supplied) cover the meal's
calendar day, the limit is at least the store size, the stored rows carry
well-formed timestamps, and no pre-existing food row references the new id
(internal/storage/sqlite.go lines 72-203). -/
theorem SaveMeal_GetMeals_roundTrip (engineFail : Nat → Bool) (db : DB)
    (meal : Meal) (startD endD : String) (limit : Int) (u : Unit) (db2 : DB)
    (hsave : SaveMeal engineFail db meal = (.ok u, db2))
    (hvm : isValidRFC3339 meal.timestamp = true ∧
           isValidRFC3339 meal.createdAt = true ∧
           isValidRFC3339 meal.updatedAt = true)
    (hvdb : ∀ r ∈ db.meals, rowTimesValid r = true)
    (hforeign : ∀ f ∈ db.foods, ¬ f.mealId = meal.id)
    (hs : startD = "" ∨ strLe startD (String.mk (meal.timestamp.data.take 10)) = true)
    (he : endD = "" ∨ strLe (String.mk (meal.timestamp.data.take 10)) endD = true)
    (hlim : (db.meals.length : Int) + 1 ≤ limit) :
    ∃ ms, GetMeals db2 startD endD limit = .ok ms ∧ meal ∈ ms := by
  obtain ⟨hm2, hf2⟩ := SaveMeal_ok_inv hsave
  have hvrow : rowTimesValid (toMealRow meal) = true := by
    simp [rowTimesValid, toMealRow, hvm.1, hvm.2.1, hvm.2.2]
  have hvalid2 : ∀ r ∈ db2.meals, rowTimesValid r = true := by
    intro r hr
    rw [hm2] at hr
    rcases List.mem_append.mp hr with hr | hr
    · exact hvdb r hr
    · rcases List.mem_cons.mp hr with hr | hr
      · subst hr; exact hvrow
      · cases hr
  have hvreached : ∀ r ∈ reachedRows db2 startD endD limit, rowTimesValid r = true := by
    intro r hr
    apply hvalid2
    have hr2 : r ∈ insertionSortDesc
        (db2.meals.filter (passesDateFilters startD endD)) := by
      unfold reachedRows at hr
      by_cases hneg : limit < 0
      · simpa [hneg] using hr
      · exact List.take_subset _ _ (by simpa [hneg] using hr)
    exact (List.mem_filter.mp
      ((insertionSortDesc_perm _).mem_iff.mp hr2)).1
  have hscan : GetMeals db2 startD endD limit =
      .ok ((reachedRows db2 startD endD limit).map (rowToMeal db2)) := by
    unfold GetMeals
    exact scanRows_ok_of_valid db2 _ hvreached
  have hpass : passesDateFilters startD endD (toMealRow meal) = true :=
    passesDateFilters_of startD endD (toMealRow meal) (by simpa [toMealRow] using hvm.1)
      (by simpa [toMealRow] using hs) (by simpa [toMealRow] using he)
  have hmemf : toMealRow meal ∈ db2.meals.filter (passesDateFilters startD endD) :=
    List.mem_filter.mpr ⟨by rw [hm2]; simp, hpass⟩
  have hmems : toMealRow meal ∈ insertionSortDesc
      (db2.meals.filter (passesDateFilters startD endD)) :=
    (insertionSortDesc_perm _).mem_iff.mpr hmemf
  have hlen : (insertionSortDesc
      (db2.meals.filter (passesDateFilters startD endD))).length ≤ limit.toNat := by
    have h1 := (insertionSortDesc_perm
      (db2.meals.filter (passesDateFilters startD endD))).length_eq
    have h2 := List.length_filter_le (passesDateFilters startD endD) db2.meals
    have h3 : db2.meals.length = db.meals.length + 1 := by
      rw [hm2]; simp
    omega
  have hmemr : toMealRow meal ∈ reachedRows db2 startD endD limit := by
    unfold reachedRows
    by_cases hneg : limit < 0
    · simpa [hneg] using hmems
    · rw [if_neg hneg, List.take_of_length_le hlen]
      exact hmems
  have hload : loadFoodsForMeal db2 meal.id = meal.foods :=
    loadFoodsForMeal_saved db2 db.foods meal.id db.nextFoodId meal.foods hf2 hforeign
  refine ⟨(reachedRows db2 startD endD limit).map (rowToMeal db2), hscan, ?_⟩
  have := List.mem_map_of_mem (rowToMeal db2) hmemr
  rwa [rowToMeal_saved db2 meal hload] at this

theorem SaveMeal_GetMeals_roundTrip_witness :
    SaveMeal noFail emptyDB sampleMeal =
      (.ok (), ⟨[toMealRow sampleMeal],
        [⟨1, "meal_1", "bread", "2 slices", 50, 30, "high"⟩,
         ⟨2, "meal_1", "butter", "1 tbsp", 0, 0, "high"⟩], 3⟩) ∧
    ∃ ms, GetMeals ⟨[toMealRow sampleMeal],
        [⟨1, "meal_1", "bread", "2 slices", 50, 30, "high"⟩,
         ⟨2, "meal_1", "butter", "1 tbsp", 0, 0, "high"⟩], 3⟩ "" "" 5 = .ok ms ∧
      sampleMeal ∈ ms :=
  ⟨rfl,
   SaveMeal_GetMeals_roundTrip noFail emptyDB sampleMeal "" "" 5 ()
     ⟨[toMealRow sampleMeal],
      [⟨1, "meal_1", "bread", "2 slices", 50, 30, "high"⟩,
       ⟨2, "meal_1", "butter", "1 tbsp", 0, 0, "high"⟩], 3⟩
     rfl (by decide) (by simp [emptyDB]) (by simp [emptyDB])
     (Or.inl rfl) (Or.inl rfl) (by decide)⟩
